import Mathlib

/-!
# Formal model of the Inft_agent vector storage and retrieval core

A shallow embedding, in Lean 4, of the vector-blob codec, the fp16 codec,
the similarity utilities and the two vector-store construction paths of the
Inft_agent repository (TypeScript), together with theorems settling the
frozen specification claims.

Modelling conventions:

* Byte buffers (`Uint8Array` / `ArrayBuffer` / `DataView`) are `List Nat`
  with each element a byte value.  `DataView` reads that would throw a JS
  `RangeError` (out-of-range offset) are modelled as an explicit
  `rangeError` result.
* 32-bit float *bit patterns* (the contents of a `Float32Array`) are `Nat`
  (values `< 2^32`); their IEEE-754 numeric value is recovered by
  `f32ValOfBits` as an exact rational.  Arithmetic on float *values*
  (dot products, normalization) is modelled exactly over `ℚ`; this is the
  standard exact-arithmetic reading of the floating-point source.
* `Math.sqrt` and SHA-256 (`node:crypto`) are external platform
  collaborators of the core; they are passed in as explicit function
  parameters (`qsqrt : ℚ → ℚ`, `sha256Hex : List Nat → String`).
* `Math.log2` in the fp16 encoder is implementation-approximated per
  ECMA-262; we model `Math.floor(Math.log2 x)` by the exact ⌊log₂ x⌋,
  which is what every practical libm yields for float32 inputs.
* ECMAScript `Array.prototype.sort` is specification-mandated stable; a
  stable sort with respect to a comparator is extensionally unique, and we
  model it by a stable insertion sort (`sortHits`) using the source's
  comparator `(a, b) => b.s - a.s`, with the ECMA rule that a NaN
  comparator result is coerced to `+0` (treated as a tie).
* A score that JS would make `NaN` (an out-of-range typed-array read
  yields `undefined`, which poisons the whole accumulated sum) is
  modelled as `none : Option ℚ`; finite scores are `some q`.
* Errors `throw new Error(msg)` are modelled as `Except` errors with a
  structured error type whose constructors carry the data interpolated
  into the source's message strings.
-/

set_option autoImplicit false

namespace InftAgent

/-! ## Byte-level primitives (DataView / TypedArray semantics)

These model the little-endian `DataView.setUint32/getUint32`,
`setUint16/getUint16` and `getUint8` accesses used by
`src/services/binary.vector.ts`, and the reinterpretation of a byte
buffer as a `Float32Array` / `Uint16Array` view (whole elements only,
`Math.floor(byteLength / elementSize)`). -/

/-- `DataView.setUint32(_, w, true)`: the four little-endian bytes of `w`
(truncated to 32 bits, as `setUint32` does). -/
def u32le (w : Nat) : List Nat :=
  [w % 256, w / 256 % 256, w / 65536 % 256, w / 16777216 % 256]

/-- `DataView.setUint16(_, w, true)`: two little-endian bytes. -/
def u16le (w : Nat) : List Nat :=
  [w % 256, w / 256 % 256]

/-- `DataView.getUint8(i)` as a bounds-checked read; `none` models the JS
`RangeError`.  (Structurally recursive — extensionally `bs[i]?` — so that
it reduces by kernel computation even on partially symbolic buffers.) -/
def byteAt : List Nat → Nat → Option Nat
  | [], _ => none
  | b :: _, 0 => some b
  | _ :: rest, n + 1 => byteAt rest n

/-- `DataView.getUint16(i, true)`; `none` models the JS `RangeError`. -/
def readU16le (bs : List Nat) (i : Nat) : Option Nat :=
  match byteAt bs i, byteAt bs (i+1) with
  | some a, some b => some (a + b * 256)
  | _, _ => none

/-- `DataView.getUint32(i, true)`; `none` models the JS `RangeError`. -/
def readU32le (bs : List Nat) (i : Nat) : Option Nat :=
  match byteAt bs i, byteAt bs (i+1), byteAt bs (i+2), byteAt bs (i+3) with
  | some a, some b, some c, some d =>
    some (a + b * 256 + c * 65536 + d * 16777216)
  | _, _, _, _ => none

/-- `DataView.getUint32(i, false)` (big-endian, used for the magic). -/
def readU32be (bs : List Nat) (i : Nat) : Option Nat :=
  match byteAt bs i, byteAt bs (i+1), byteAt bs (i+2), byteAt bs (i+3) with
  | some a, some b, some c, some d =>
    some (a * 16777216 + b * 65536 + c * 256 + d)
  | _, _, _, _ => none

/-- Viewing a byte buffer as a `Float32Array`: group into little-endian
32-bit words, keeping `Math.floor(byteLength / 4)` whole elements and
discarding a trailing partial group. -/
def wordsLE4 : List Nat → List Nat
  | a :: b :: c :: d :: rest =>
    (a + b * 256 + c * 65536 + d * 16777216) :: wordsLE4 rest
  | _ => []

/-- Viewing a byte buffer as a `Uint16Array`: little-endian 16-bit words,
`Math.floor(byteLength / 2)` whole elements. -/
def halfsLE2 : List Nat → List Nat
  | a :: b :: rest => (a + b * 256) :: halfsLE2 rest
  | _ => []

/-- `view.subarray(i*dim, (i+1)*dim)` for `i = 0 .. count-1`: slice a flat
element list into `count` rows of (at most) `dim` elements.  TypedArray
`subarray` clamps out-of-range bounds, which is exactly what
`take`/`drop` do. -/
def sliceRows (flat : List Nat) (dim : Nat) : Nat → List (List Nat)
  | 0 => []
  | n + 1 => flat.take dim :: sliceRows (flat.drop dim) dim n

/-! ## FP16 codec (`src/utils/fpI6.ts`)

The encoder `float32ToFp16Array` works on the *numeric value* of each
float32 element (sign test, `Math.log2`, `Math.round`); the decoder
`fp16ToFloat32Array` produces float32 values that are all exactly
representable, so we give its bit-level fusion with `Float32Array`
storage.  `jsRound` is ECMAScript `Math.round` (round half toward +∞). -/

/-- Fuel-driven ⌊log₂ n⌋ on naturals (0 at 0), structurally recursive so
that it evaluates by kernel reduction. -/
def natLog2Aux : Nat → Nat → Nat
  | 0, _ => 0
  | fuel + 1, n => if n < 2 then 0 else natLog2Aux fuel (n / 2) + 1

def natLog2 (n : Nat) : Nat := natLog2Aux n n

/-- Fuel-driven ⌈log₂ r⌉ for rationals `r > 1` by repeated halving. -/
def clog2Aux : Nat → ℚ → Nat
  | 0, _ => 0
  | fuel + 1, r => if r ≤ 1 then 0 else clog2Aux fuel (r / 2) + 1

def ceilLog2 (r : ℚ) : Nat := clog2Aux (max 64 (⌈r⌉).toNat) r

/-- `2^e` for a signed exponent, as an exact rational. -/
def qpow2 : ℤ → ℚ
  | .ofNat n => 2 ^ n
  | .negSucc n => 1 / 2 ^ (n + 1)

/-- Exact model of `Math.floor(Math.log2 x)` for `x > 0`. -/
def flog2 (x : ℚ) : ℤ :=
  if 1 ≤ x then (natLog2 (⌊x⌋).toNat : ℤ) else -(ceilLog2 x⁻¹ : ℤ)

/-- ECMAScript `Math.round`: round half toward +∞. -/
def jsRound (x : ℚ) : ℤ := ⌊x + 1/2⌋

/-- The exact numeric value of a finite float32 bit pattern.  Patterns with
exponent field 255 (Infinity/NaN) have no rational value and are mapped to
0 here; the fp16 encoder treats them separately at the bit level
(`float32ToFp16Bits`), exactly as the source tests `isNaN`/`Infinity`
before any arithmetic. -/
def f32ValOfBits (w : Nat) : ℚ :=
  let s : Nat := w / 2 ^ 31 % 2
  let e : Nat := w / 2 ^ 23 % 256
  let f : Nat := w % 2 ^ 23
  let mag : ℚ :=
    if e = 0 then (f : ℚ) / 2 ^ 23 * qpow2 (-126)
    else if e = 255 then 0
    else (1 + (f : ℚ) / 2 ^ 23) * qpow2 ((e : ℤ) - 127)
  (if s = 1 then -1 else 1) * mag

/-- `float32ToFp16Array`, inner loop, on a finite numeric value `x`:
the sign test, zero test, `Math.floor(Math.log2 .)`, exponent bias,
subnormal scaling and `Math.round(m * 1024) & 0x3FF` of the source,
in exact arithmetic.  Note the faithful reproduction of the source's
`& 0x3FF` after rounding: a mantissa that rounds up to 1024 has its
carry bit silently discarded. -/
def jsFloat32ToFp16 (x : ℚ) : Nat :=
  let sign := if x < 0 then 1 else 0
  let a := |x|
  if a = 0 then sign <<< 15
  else
    let e0 := flog2 a
    let m0 := a / qpow2 e0 - 1
    let e := e0 + 15
    if e ≤ 0 then
      (sign <<< 15) ||| (max 0 (jsRound (a / qpow2 (-14)))).toNat
    else if 31 ≤ e then
      (sign <<< 15) ||| 0x7C00
    else
      (sign <<< 15) ||| (e.toNat <<< 10) ||| ((jsRound (m0 * 1024)).toNat &&& 0x3FF)

/-- `float32ToFp16Array` on a float32 bit pattern.  The source reads the
element as a JS number first: NaN gives `0x7E00` (the sign test
`NaN < 0` is false), ±Infinity gives a signed `0x7C00`; every finite
pattern goes through the numeric path. -/
def float32ToFp16Bits (w : Nat) : Nat :=
  let s := w / 2 ^ 31 % 2
  let e := w / 2 ^ 23 % 256
  let f := w % 2 ^ 23
  if e = 255 then
    if f ≠ 0 then 0x7E00 else (s <<< 15) ||| 0x7C00
  else jsFloat32ToFp16 (f32ValOfBits w)

/-- `fp16ToFloat32Array` on one half-precision pattern, fused with the
float32 storage of its result (every finite half value is exactly
representable in float32; NaN is stored as the canonical quiet NaN
`0x7FC00000`).  Subnormal halves (`e = 0`, `f ≠ 0`) have value
`±f·2^-24`, renormalized here into a float32 normal number. -/
def halfBitsToF32Bits (h : Nat) : Nat :=
  let s := h / 2 ^ 15 % 2
  let e := h / 2 ^ 10 % 32
  let f := h % 2 ^ 10
  if e = 0 then
    if f = 0 then s <<< 31
    else
      let k := natLog2 f
      (s <<< 31) ||| ((k + 103) <<< 23) ||| ((f <<< (23 - k)) % 2 ^ 23)
  else if e = 31 then
    if f ≠ 0 then 0x7FC00000 else (s <<< 31) ||| 0x7F800000
  else
    (s <<< 31) ||| ((e + 112) <<< 23) ||| (f <<< 13)

/-! ## Vector blob codec (`src/services/binary.vector.ts`)

The v0/v1 dual-header codec (the "current" variant of the file, given in
full in the repository; the 13-byte-only historical variant is its v0
restriction). -/

def MAGIC : Nat := 0x56454342

inductive EncodeFormat
  | v0
  | v1
deriving DecidableEq

structure VectorBlobHeader where
  dim : Nat
  count : Nat
  /-- normalized quant code: 0 = fp32, 1 = fp16 -/
  quant : Nat
  /-- `some v` for a v1 header, `none` for v0 -/
  version : Option Nat
deriving DecidableEq

inductive DecodeErr
  /-- "Bad vectors blob magic" -/
  | badMagic
  /-- "Unknown quant code in v0 header: q" -/
  | unknownQuantCode (q : Nat)
  /-- a `DataView` read past the end of the buffer (JS `RangeError`) -/
  | rangeError
deriving DecidableEq

/-- `encodeVectorsBlob(vectors, quant, format)`.  Elements of `vectors`
are float32 bit patterns.  `quant = 0` stores fp32 payload (raw pattern
bytes, little-endian); any other quant stores fp16 payload via
`float32ToFp16Array`.  Errors: empty input, inconsistent dimensions. -/
def encodeVectorsBlob (vectors : List (List Nat)) (quant : Nat)
    (format : EncodeFormat) : Except String (List Nat) :=
  if vectors.length = 0 then .error "No vectors to encode"
  else
    let dim := (vectors.headD []).length
    if vectors.any (fun v => v.length ≠ dim) then .error "Dimension mismatch"
    else
      let count := vectors.length
      let payload :=
        if quant = 0 then (vectors.flatten).flatMap u32le
        else ((vectors.flatten).map float32ToFp16Bits).flatMap u16le
      match format with
      | .v1 =>
        .ok ([0x56, 0x45, 0x43, 0x42, 1, if quant = 0 then 1 else 2, 0, 0]
          ++ u32le dim ++ u32le count ++ payload)
      | .v0 =>
        .ok ([0x56, 0x45, 0x43, 0x42] ++ u32le dim ++ u32le count
          ++ [quant % 256] ++ payload)

/-- The v1-header detection heuristic of `decodeVectorsBlob`:
`byteLength >= 16 && 1 <= version <= 10 && (dtype == 1 || dtype == 2)
&& pad == 0`, reading bytes 4, 5 and 6..7. -/
def isV1Sniff (bytes : List Nat) : Bool :=
  decide (16 ≤ bytes.length) &&
  (match byteAt bytes 4, byteAt bytes 5, readU16le bytes 6 with
   | some v, some d, some p =>
     decide (1 ≤ v) && decide (v ≤ 10) &&
     (decide (d = 1) || decide (d = 2)) && decide (p = 0)
   | _, _, _ => false)

/-- Payload decoding: fp32 reinterprets bytes as a float32 view and
slices rows; fp16 reinterprets as a uint16 view, slices rows and maps
each element through `fp16ToFloat32Array`.  (The source's 4- or 2-byte
alignment copy has no observable effect in the byte model.) -/
def decodePayload (quant dim count : Nat) (payload : List Nat) :
    List (List Nat) :=
  if quant = 0 then sliceRows (wordsLE4 payload) dim count
  else (sliceRows (halfsLE2 payload) dim count).map (List.map halfBitsToF32Bits)

/-- `decodeVectorsBlob(buf)`: magic check, v0/v1 sniffing, header parse
(with the v0 lenient acceptance of quant code 2 as fp16), payload
slicing.  Note: the source reads bytes 4..7 *before* knowing which
layout is present, so buffers shorter than 8 bytes raise `RangeError`
even with a good magic, and there is no payload-length validation
anywhere. -/
def decodeVectorsBlob (bytes : List Nat) :
    Except DecodeErr (VectorBlobHeader × List (List Nat)) :=
  match readU32be bytes 0 with
  | none => .error .rangeError
  | some magic =>
    if magic ≠ MAGIC then .error .badMagic
    else
      match byteAt bytes 4, byteAt bytes 5, readU16le bytes 6 with
      | some v, some d, some _ =>
        if isV1Sniff bytes then
          match readU32le bytes 8, readU32le bytes 12 with
          | some dim, some count =>
            let quant := if d = 1 then 0 else 1
            .ok (⟨dim, count, quant, some v⟩,
                 decodePayload quant dim count (bytes.drop 16))
          | _, _ => .error .rangeError
        else
          match readU32le bytes 4, readU32le bytes 8, byteAt bytes 12 with
          | some dim, some count, some q =>
            if q = 0 then
              .ok (⟨dim, count, 0, none⟩,
                   decodePayload 0 dim count (bytes.drop 13))
            else if q = 1 ∨ q = 2 then
              .ok (⟨dim, count, 1, none⟩,
                   decodePayload 1 dim count (bytes.drop 13))
            else .error (.unknownQuantCode q)
          | _, _, _ => .error .rangeError
      | _, _, _ => .error .rangeError

/-- A byte buffer laid out per the v1 (16-byte) header: magic, version,
dtype, pad, dim (LE u32), count (LE u32), payload.  `encodeVectorsBlob`
with format v1 produces exactly this shape. -/
def mkV1 (dim count dtype : Nat) (payload : List Nat) : List Nat :=
  0x56 :: 0x45 :: 0x43 :: 0x42 :: 1 :: dtype :: 0 :: 0 ::
  (dim % 256) :: (dim / 256 % 256) :: (dim / 65536 % 256) :: (dim / 16777216 % 256) ::
  (count % 256) :: (count / 256 % 256) :: (count / 65536 % 256) :: (count / 16777216 % 256) ::
  payload

/-- A byte buffer laid out per the v0 (13-byte) header: magic, dim
(LE u32), count (LE u32), quant byte, payload. -/
def mkV0 (dim count q : Nat) (payload : List Nat) : List Nat :=
  0x56 :: 0x45 :: 0x43 :: 0x42 ::
  (dim % 256) :: (dim / 256 % 256) :: (dim / 65536 % 256) :: (dim / 16777216 % 256) ::
  (count % 256) :: (count / 256 % 256) :: (count / 65536 % 256) :: (count / 16777216 % 256) ::
  q :: payload

/-! ## Similarity utilities (`src/utils/cosine.ts`)

`Math.sqrt` is a platform primitive; it enters as the parameter
`qsqrt`.  Theorems that depend on square roots being exact carry an
explicit hypothesis about `qsqrt` on the values actually encountered. -/

/-- Sum of squares; `l2norm v = Math.sqrt (sumSq v)`. -/
def sumSq (v : List ℚ) : ℚ := (v.map (fun x => x * x)).sum

def l2norm (qsqrt : ℚ → ℚ) (v : List ℚ) : ℚ := qsqrt (sumSq v)

/-- `normalizeInPlace`: divide every element by the norm; leave the
vector unchanged if the norm is not positive. -/
def normalizeInPlace (qsqrt : ℚ → ℚ) (v : List ℚ) : List ℚ :=
  let n := l2norm qsqrt v
  if 0 < n then v.map (fun x => x / n) else v

/-- `cosine(a, b)`: plain dot product `Σ_{i < a.length} a[i]*b[i]`.
When `b` is shorter than `a` the JS loop reads `b[i] = undefined` and the
accumulated sum becomes NaN, modelled as `none`. -/
def cosine (a b : List ℚ) : Option ℚ :=
  if b.length < a.length then none
  else some ((List.zipWith (fun x y => x * y) a b).sum)

/-! ## Stable descending sort on (index, score) pairs

`scores.sort((a, b) => b.s - a.s)` with ECMAScript's mandated-stable
sort.  `hitLT x y` holds when the comparator makes `x` strictly precede
`y` (`y.s - x.s < 0`); a NaN comparator value is treated as `+0`
(a tie), per the `SortCompare` specification. -/

abbrev ScoredPair := Nat × Option ℚ

def hitLT (x y : ScoredPair) : Bool :=
  match x.2, y.2 with
  | some a, some b => decide (b < a)
  | _, _ => false

/-- Stable insertion of an element that originally precedes everything in
`l`: it is placed before the first element that does not strictly
precede it. -/
def insertHit (x : ScoredPair) : List ScoredPair → List ScoredPair
  | [] => [x]
  | y :: l => if hitLT y x then y :: insertHit x l else x :: y :: l

/-- Stable sort (insertion sort) by descending score; extensionally equal
to any stable sort with the source's comparator. -/
def sortHits : List ScoredPair → List ScoredPair
  | [] => []
  | x :: l => insertHit x (sortHits l)

/-! ## Inline vector store (`src/services/precomputed-store.ts`) -/

/-- `base64ToFloat32`: the base64 text decodes (externally, via `Buffer`)
to raw bytes; the view keeps `Math.floor(byteLength / 4)` float32
elements. -/
def base64ToFloat32 (bytes : List Nat) : List Nat := wordsLE4 bytes

/-- A manifest entry as the store sees it after schema validation.
`embedding` is the inline numeric array (already float32 values);
`embedding_b64` is the byte content of the base64 field (`none` models
an absent — or falsy empty — string). -/
structure PEntry (M : Type) where
  id : String
  text : String
  meta : Option M
  embedding : Option (List ℚ)
  embedding_b64 : Option (List Nat)

structure PModelCard where
  id : String
  dim : Nat
  normalize : Bool

structure PManifest (M : Type) where
  model : PModelCard
  entries : List (PEntry M)

/-- A loaded record: parallel arrays `vectors/ids/texts/metas` of the
source, fused into one record list (same indexing). -/
structure PRec (M : Type) where
  vector : List ℚ
  id : String
  text : String
  meta : Option M

inductive PStoreErr
  /-- "Entry {id} has dim {got}, expected {expected}" -/
  | entryDimMismatch (id : String) (got expected : Nat)
  /-- "No vectors loaded from manifest entries." -/
  | noVectorsLoaded
deriving DecidableEq

structure PStore (M : Type) where
  model : PModelCard
  recs : List (PRec M)

def PStore.size {M : Type} (s : PStore M) : Nat := s.recs.length

/-- The per-entry vector extraction of `fromManifest`: `embedding_b64`
takes priority, else the inline numeric array, else nothing. -/
def extractVec {M : Type} (e : PEntry M) : Option (List ℚ) :=
  match e.embedding_b64 with
  | some bs => some ((base64ToFloat32 bs).map f32ValOfBits)
  | none =>
    match e.embedding with
    | some arr => some arr
    | none => none

/-- The entry loop of `fromManifest`: skip entries with no vector
(`if (!vec) continue`), fail on a dimension mismatch, normalize when
re-normalization was requested or the model card says
`normalize: false`, and collect records in entry order. -/
def buildRecs {M : Type} (qsqrt : ℚ → ℚ) (dim : Nat)
    (normalize reNormalize : Bool) :
    List (PEntry M) → Except PStoreErr (List (PRec M))
  | [] => .ok []
  | e :: es =>
    match extractVec e with
    | none => buildRecs qsqrt dim normalize reNormalize es
    | some v =>
      if v.length ≠ dim then .error (.entryDimMismatch e.id v.length dim)
      else
        let w := if reNormalize || !normalize then normalizeInPlace qsqrt v else v
        match buildRecs qsqrt dim normalize reNormalize es with
        | .error err => .error err
        | .ok rest => .ok (⟨w, e.id, e.text, e.meta⟩ :: rest)

/-- `PrecomputedVectorStore.fromManifest(manifest, {reNormalize})`.
(Schema validation is an external collaborator; the manifest is received
already parsed.) -/
def fromManifest {M : Type} (qsqrt : ℚ → ℚ) (manifest : PManifest M)
    (reNormalize : Bool) : Except PStoreErr (PStore M) :=
  match buildRecs qsqrt manifest.model.dim manifest.model.normalize
      reNormalize manifest.entries with
  | .error err => .error err
  | .ok recs =>
    if recs.length = 0 then .error .noVectorsLoaded
    else .ok ⟨manifest.model, recs⟩

/-! ## Cosine top-k search (`PrecomputedVectorStore.search`, shared
verbatim by the second `ExternalVectorStore.search`) -/

def passesFilter {M : Type} (filter : Option (Option M → Bool))
    (meta : Option M) : Bool :=
  match filter with
  | none => true
  | some f => f meta

/-- The `{i, s}` score list: for each record index passing the filter,
the cosine score of the query against that record. -/
def scoredList {M : Type} (recs : List (PRec M)) (queryVec : List ℚ)
    (filter : Option (Option M → Bool)) : List ScoredPair :=
  (recs.enum.filter (fun p => passesFilter filter p.2.meta)).map
    (fun p => (p.1, cosine queryVec p.2.vector))

structure VectorHit (M : Type) where
  id : String
  score : Option ℚ
  text : String
  meta : Option M

/-- `{id: ids[i], score: s, text: texts[i], meta: metas[i]}`.  The
fallback row is unreachable: every index comes from `enum`. -/
def toHit {M : Type} (recs : List (PRec M)) (p : ScoredPair) : VectorHit M :=
  match recs[p.1]? with
  | some r => ⟨r.id, p.2, r.text, r.meta⟩
  | none => ⟨"", p.2, "", none⟩

/-- `search(queryVec, k, filter)`: score the filtered records, stable-sort
descending, truncate to `Math.min(k, scores.length)`, map to hits. -/
def search {M : Type} (recs : List (PRec M)) (queryVec : List ℚ) (k : Nat)
    (filter : Option (Option M → Bool)) : List (VectorHit M) :=
  let scores := scoredList recs queryVec filter
  ((sortHits scores).take (min k (sortHits scores).length)).map (toHit recs)

def PStore.search {M : Type} (s : PStore M) (queryVec : List ℚ) (k : Nat)
    (filter : Option (Option M → Bool)) : List (VectorHit M) :=
  InftAgent.search s.recs queryVec k filter

/-! ## External vector store, checksum-verifying variant
(`src/services/external-store.ts`, `fromManifestWithExternalVectors`) -/

structure ExtModelCard where
  id : String
  dim : Nat
  normalize : Bool
  /-- optional `model.checksum` fallback -/
  checksum : Option String

structure ExtEntry (M : Type) where
  id : String
  text : String
  meta : Option M

structure ExtManifest (M : Type) where
  model : ExtModelCard
  entries : List (ExtEntry M)
  /-- `none` models an absent (or falsy empty) `vectors_uri`; the source
  additionally trims surrounding whitespace, which we take as already
  done. -/
  vectors_uri : Option String
  vectors_checksum : Option String

inductive ExtErr
  /-- "Manifest has no vectors_uri" -/
  | noVectorsUri
  /-- "Vectors checksum mismatch: got=... expected=..." -/
  | checksumMismatch (got expected : String)
  /-- a decode failure propagated from `decodeVectorsBlob` -/
  | decodeFailed (e : DecodeErr)
  /-- "Blob dim {got} != manifest dim {expected}" -/
  | dimMismatch (got expected : Nat)
  /-- "Blob count {got} != manifest entries {expected}" -/
  | countMismatch (got expected : Nat)
deriving DecidableEq

structure ExtStore (M : Type) where
  model : ExtModelCard
  recs : List (PRec M)

def ExtStore.size {M : Type} (s : ExtStore M) : Nat := s.recs.length

/-- `manifest.vectors_checksum || manifest.model.checksum`. -/
def expectedChecksum {M : Type} (manifest : ExtManifest M) : Option String :=
  match manifest.vectors_checksum with
  | some c => some c
  | none => manifest.model.checksum

/-- Decode + contract checks + assembly: steps 3–5 of
`fromManifestWithExternalVectors`. -/
def extDecodeAndBuild {M : Type} (qsqrt : ℚ → ℚ) (manifest : ExtManifest M)
    (bytes : List Nat) : Except ExtErr (ExtStore M) :=
  match decodeVectorsBlob bytes with
  | .error e => .error (.decodeFailed e)
  | .ok (header, vectors) =>
    if header.dim ≠ manifest.model.dim then
      .error (.dimMismatch header.dim manifest.model.dim)
    else if vectors.length ≠ manifest.entries.length then
      .error (.countMismatch vectors.length manifest.entries.length)
    else
      .ok ⟨manifest.model,
        (vectors.zip manifest.entries).map (fun p =>
          let v := p.1.map f32ValOfBits
          let w := if manifest.model.normalize then v
                   else normalizeInPlace qsqrt v
          ⟨w, p.2.id, p.2.text, p.2.meta⟩)⟩

/-- `ExternalVectorStore.fromManifestWithExternalVectors`.  The byte
fetch (`fetchBytesSmart`) is an external collaborator: `bytes` are the
fetched raw bytes.  SHA-256 is the injected `sha256Hex`. -/
def fromManifestWithExternalVectors {M : Type} (qsqrt : ℚ → ℚ)
    (sha256Hex : List Nat → String) (manifest : ExtManifest M)
    (bytes : List Nat) : Except ExtErr (ExtStore M) :=
  let raw := manifest.vectors_uri.getD ""
  if raw = "" then .error .noVectorsUri
  else
    match expectedChecksum manifest with
    | some c =>
      let got := sha256Hex bytes
      if got ≠ c then .error (.checksumMismatch got c)
      else extDecodeAndBuild qsqrt manifest bytes
    | none => extDecodeAndBuild qsqrt manifest bytes

/-! ## External vector store, dimension-checking search variant
(the first `ExternalVectorStore` in `external-store.ts`) -/

structure EStore1 where
  vecs : List (List ℚ)
  texts : List String
  ids : List (Option String)
  dim : Nat
  normalized : Bool

structure EHit1 where
  index : Nat
  score : Option ℚ
  text : String
  id : Option String

inductive ESearchErr
  /-- "Query dim {got} != store dim {expected}" -/
  | queryDimMismatch (got expected : Nat)
deriving DecidableEq

/-- The per-record score of that variant: `for (j = 0; j < dim; j++)
s += q[j] * v[j]`; an out-of-range read poisons the sum (NaN). -/
def dotOverDim (dim : Nat) (a b : List ℚ) : Option ℚ :=
  if a.length < dim ∨ b.length < dim then none
  else some ((List.zipWith (fun x y => x * y) (a.take dim) (b.take dim)).sum)

/-- `ExternalVectorStore.search(query, topK)` of the first variant: the
only search in the repository with an explicit query-dimension check.
The arg-sort `idxs.sort((a, b) => scores[b] - scores[a])` over initially
ascending indices is the same stable descending sort `sortHits` applied
to the enumerated score list. -/
def eSearch1 (qsqrt : ℚ → ℚ) (st : EStore1) (query : List ℚ) (topK : Nat) :
    Except ESearchErr (List EHit1) :=
  if query.length ≠ st.dim then
    .error (.queryDimMismatch query.length st.dim)
  else
    let q := if st.normalized then query else normalizeInPlace qsqrt query
    let scores := st.vecs.map (fun v => dotOverDim st.dim q v)
    let sorted := sortHits scores.enum
    ((sorted.take (min topK st.vecs.length)).map (fun p =>
      (⟨p.1, p.2, st.texts.getD p.1 "", (st.ids.getD p.1 none)⟩ : EHit1))
      : List EHit1) |> .ok
/-! ## Concrete instances used by witnesses and counterexamples -/

def lexAfter (a b : ScoredPair) : Prop :=
  ∃ sa sb, a.2 = some sa ∧ b.2 = some sb ∧ (sb < sa ∨ (sa = sb ∧ a.1 < b.1))

def c1recs : List (PRec Unit) :=
  [⟨[1, 0], "a", "ta", none⟩, ⟨[0, 1], "b", "tb", none⟩]

def c10store : EStore1 :=
  ⟨[[1, 0], [0, 1]], ["a", "b"], [none, none], 2, true⟩

def c7man : PManifest Unit :=
  ⟨⟨"m", 1, true⟩,
   [⟨"a", "ta", none, none, none⟩, ⟨"b", "tb", none, some [1], none⟩]⟩

def c8manA : PManifest Unit :=
  ⟨⟨"m", 2, true⟩, [⟨"a", "t", none, some [2, 0], none⟩]⟩

def c8manB : PManifest Unit :=
  ⟨⟨"m", 2, true⟩, [⟨"z", "t", none, some [0, 0], none⟩]⟩

def c8sqrt : ℚ → ℚ := fun x => if x = 25 then 5 else 0

def c8manW : PManifest Unit :=
  ⟨⟨"m", 2, false⟩, [⟨"w", "t", none, some [3, 4], none⟩]⟩

def c8storeW : PStore Unit := ⟨⟨"m", 2, false⟩, [⟨[3/5, 4/5], "w", "t", none⟩]⟩

def c5sha : List Nat → String :=
  fun bs => if bs = [9, 9, 9] then "sha256:aaa" else "sha256:bbb"

def c5man : ExtManifest Unit :=
  ⟨⟨"m", 1, true, none⟩, [⟨"a", "t", none⟩], some "ipfs://x", some "sha256:aaa"⟩

def c6man : ExtManifest Unit :=
  ⟨⟨"m", 2, true, none⟩, [⟨"a", "t", none⟩, ⟨"b", "t", none⟩],
   some "ipfs://v", none⟩

/-! ## Lemmas and claim theorems -/

set_option maxRecDepth 8192

theorem u32le_parse (w : Nat) :
    w % 256 + w / 256 % 256 * 256 + w / 65536 % 256 * 65536 +
      w / 16777216 % 256 * 16777216 = w % 4294967296 := by omega

theorem length_mkV1 (dim count d : Nat) (p : List Nat) :
    (mkV1 dim count d p).length = 16 + p.length := by
  simp [mkV1]; omega

theorem readU32be_mkV1 (dim count d : Nat) (p : List Nat) :
    readU32be (mkV1 dim count d p) 0 = some MAGIC := rfl

theorem readU16le_mkV1_6 (dim count d : Nat) (p : List Nat) :
    readU16le (mkV1 dim count d p) 6 = some 0 := rfl

theorem readU32le_mkV1_8 (dim count d : Nat) (p : List Nat) :
    readU32le (mkV1 dim count d p) 8 = some (dim % 4294967296) := by
  show some (dim % 256 + dim / 256 % 256 * 256 + dim / 65536 % 256 * 65536 +
      dim / 16777216 % 256 * 16777216) = _
  rw [u32le_parse]

theorem readU32le_mkV1_12 (dim count d : Nat) (p : List Nat) :
    readU32le (mkV1 dim count d p) 12 = some (count % 4294967296) := by
  have h : readU32le (mkV1 dim count d p) 12 = some (count % 256 +
      count / 256 % 256 * 256 + count / 65536 % 256 * 65536 +
      count / 16777216 % 256 * 16777216) := rfl
  rw [h, u32le_parse]

theorem isV1Sniff_mkV1 (dim count d : Nat) (p : List Nat) (hd : d = 1 ∨ d = 2) :
    isV1Sniff (mkV1 dim count d p) = true := by
  have hlen : (16 : Nat) ≤ (mkV1 dim count d p).length := by
    rw [length_mkV1]; omega
  simp only [isV1Sniff, readU16le_mkV1_6]
  show (decide (16 ≤ (mkV1 dim count d p).length) &&
    (decide (1 ≤ 1) && decide (1 ≤ 10) && (decide (d = 1) || decide (d = 2)) &&
      decide ((0 : Nat) = 0))) = true
  simp [hlen]
  tauto

theorem decode_mkV1 (dim count d : Nat) (p : List Nat) (hd : d = 1 ∨ d = 2)
    (hdim : dim < 4294967296) (hcount : count < 4294967296) :
    decodeVectorsBlob (mkV1 dim count d p) =
      .ok (⟨dim, count, if d = 1 then 0 else 1, some 1⟩,
           decodePayload (if d = 1 then 0 else 1) dim count p) := by
  unfold decodeVectorsBlob
  rw [readU32be_mkV1]
  have h4 : byteAt (mkV1 dim count d p) 4 = some 1 := rfl
  have h5 : byteAt (mkV1 dim count d p) 5 = some d := rfl
  have hdrop : (mkV1 dim count d p).drop 16 = p := rfl
  rw [h4, h5, readU16le_mkV1_6, isV1Sniff_mkV1 dim count d p hd,
    readU32le_mkV1_8, readU32le_mkV1_12,
    Nat.mod_eq_of_lt hdim, Nat.mod_eq_of_lt hcount]
  simp [hdrop]

theorem readU32be_mkV0 (dim count q : Nat) (p : List Nat) :
    readU32be (mkV0 dim count q p) 0 = some MAGIC := rfl

theorem readU32le_mkV0_4 (dim count q : Nat) (p : List Nat) :
    readU32le (mkV0 dim count q p) 4 = some (dim % 4294967296) := by
  show some (dim % 256 + dim / 256 % 256 * 256 + dim / 65536 % 256 * 65536 +
      dim / 16777216 % 256 * 16777216) = _
  rw [u32le_parse]

theorem readU32le_mkV0_8 (dim count q : Nat) (p : List Nat) :
    readU32le (mkV0 dim count q p) 8 = some (count % 4294967296) := by
  show some (count % 256 + count / 256 % 256 * 256 + count / 65536 % 256 * 65536 +
      count / 16777216 % 256 * 16777216) = _
  rw [u32le_parse]

theorem isV1Sniff_mkV0_indep (dim count q q2 : Nat) (p : List Nat) :
    isV1Sniff (mkV0 dim count q p) = isV1Sniff (mkV0 dim count q2 p) := rfl

theorem decode_mkV0 (dim count q : Nat) (p : List Nat)
    (hsniff : isV1Sniff (mkV0 dim count q p) = false)
    (hdim : dim < 4294967296) (hcount : count < 4294967296) :
    decodeVectorsBlob (mkV0 dim count q p) =
      (if q = 0 then
        .ok (⟨dim, count, 0, none⟩, decodePayload 0 dim count p)
      else if q = 1 ∨ q = 2 then
        .ok (⟨dim, count, 1, none⟩, decodePayload 1 dim count p)
      else .error (.unknownQuantCode q)) := by
  unfold decodeVectorsBlob
  rw [readU32be_mkV0]
  have h4 : byteAt (mkV0 dim count q p) 4 = some (dim % 256) := rfl
  have h5 : byteAt (mkV0 dim count q p) 5 = some (dim / 256 % 256) := rfl
  have h6 : readU16le (mkV0 dim count q p) 6 =
      some (dim / 65536 % 256 + dim / 16777216 % 256 * 256) := rfl
  have h12 : byteAt (mkV0 dim count q p) 12 = some q := rfl
  have hdrop : (mkV0 dim count q p).drop 13 = p := rfl
  rw [h4, h5, h6, hsniff, readU32le_mkV0_4, readU32le_mkV0_8, h12,
    Nat.mod_eq_of_lt hdim, Nat.mod_eq_of_lt hcount]
  simp [hdrop, MAGIC]

theorem wordsLE4_flatMap (ws : List Nat) (h : ∀ w ∈ ws, w < 4294967296) :
    wordsLE4 (ws.flatMap u32le) = ws := by
  induction ws with
  | nil => rfl
  | cons w rest ih =>
    have hw : w < 4294967296 := h w (by simp)
    have hrest : ∀ x ∈ rest, x < 4294967296 := fun x hx => h x (by simp [hx])
    rw [List.flatMap_cons]
    show (w % 256 + w / 256 % 256 * 256 + w / 65536 % 256 * 65536 +
      w / 16777216 % 256 * 16777216) :: wordsLE4 (rest.flatMap u32le) = w :: rest
    rw [u32le_parse, Nat.mod_eq_of_lt hw, ih hrest]

theorem sliceRows_flatten (vs : List (List Nat)) (dim : Nat)
    (h : ∀ v ∈ vs, v.length = dim) :
    sliceRows vs.flatten dim vs.length = vs := by
  induction vs with
  | nil => rfl
  | cons v rest ih =>
    have hv : v.length = dim := h v (by simp)
    have hrest : ∀ x ∈ rest, x.length = dim := fun x hx => h x (by simp [hx])
    show (v ++ rest.flatten).take dim ::
      sliceRows ((v ++ rest.flatten).drop dim) dim rest.length = v :: rest
    rw [List.take_left' hv, List.drop_left' hv, ih hrest]

theorem decodePayload_fp32 (dim : Nat) (vs : List (List Nat))
    (h : ∀ v ∈ vs, v.length = dim)
    (hw : ∀ v ∈ vs, ∀ w ∈ v, w < 4294967296) :
    decodePayload 0 dim vs.length ((vs.flatten).flatMap u32le) = vs := by
  unfold decodePayload
  rw [if_pos rfl, wordsLE4_flatMap, sliceRows_flatten vs dim h]
  intro w hmem
  rw [List.mem_flatten] at hmem
  obtain ⟨v, hv, hwv⟩ := hmem
  exact hw v hv w hwv

theorem length_sliceRows (dim count : Nat) : ∀ flat : List Nat,
    (sliceRows flat dim count).length = count := by
  induction count with
  | zero => intro flat; rfl
  | succ n ih => intro flat; simp [sliceRows, ih]

theorem length_decodePayload (q dim count : Nat) (p : List Nat) :
    (decodePayload q dim count p).length = count := by
  unfold decodePayload
  split <;> simp [length_sliceRows]

theorem encode_v1_eq (vs : List (List Nat)) (quant : Nat)
    (hne : ¬ vs.length = 0) (hdim : ∀ v ∈ vs, v.length = (vs.headD []).length) :
    encodeVectorsBlob vs quant .v1 =
      .ok (mkV1 (vs.headD []).length vs.length (if quant = 0 then 1 else 2)
        (if quant = 0 then (vs.flatten).flatMap u32le
         else ((vs.flatten).map float32ToFp16Bits).flatMap u16le)) := by
  unfold encodeVectorsBlob
  have hany : (vs.any (fun v => v.length ≠ (vs.headD []).length)) = false := by
    rw [List.any_eq_false]
    intro v hv
    simp [hdim v hv]
  rw [if_neg hne]
  simp only [hany, Bool.false_eq_true, if_false]
  simp [mkV1, u32le]

/-- Claim C2: for every non-empty list of equal-length float32 vectors
(bit patterns below `2^32`, with dimension and count fitting the u32 header
fields), decoding the blob produced by encoding at fp32 returns exactly the
original vectors bit-for-bit, and the decoded header has
`dim = v[0].length`, `count = v.length` and `quant` equal to the
quantization the encoder was given — for both fp32 and fp16 encodings. -/
theorem fp32_roundtrip_and_header (vs : List (List Nat))
    (hne : vs ≠ [])
    (hdim : ∀ v ∈ vs, v.length = (vs.headD []).length)
    (hw : ∀ v ∈ vs, ∀ w ∈ v, w < 4294967296)
    (hdlt : (vs.headD []).length < 4294967296)
    (hclt : vs.length < 4294967296) :
    (∃ bytes, encodeVectorsBlob vs 0 .v1 = .ok bytes ∧
      decodeVectorsBlob bytes =
        .ok (⟨(vs.headD []).length, vs.length, 0, some 1⟩, vs)) ∧
    (∃ bytes vecs, encodeVectorsBlob vs 1 .v1 = .ok bytes ∧
      decodeVectorsBlob bytes =
        .ok (⟨(vs.headD []).length, vs.length, 1, some 1⟩, vecs)) := by
  have hne' : ¬ vs.length = 0 := by simpa [List.length_eq_zero] using hne
  constructor
  · have he := encode_v1_eq vs 0 hne' hdim
    rw [show (if (0:Nat) = 0 then (1:Nat) else 2) = 1 from rfl,
        show (if (0:Nat) = 0 then (vs.flatten).flatMap u32le
          else ((vs.flatten).map float32ToFp16Bits).flatMap u16le) =
          (vs.flatten).flatMap u32le from rfl] at he
    refine ⟨_, he, ?_⟩
    rw [decode_mkV1 _ _ 1 _ (Or.inl rfl) hdlt hclt,
        show (if (1:Nat) = 1 then (0:Nat) else 1) = 0 from rfl,
        decodePayload_fp32 _ vs hdim hw]
  · have he := encode_v1_eq vs 1 hne' hdim
    rw [show (if (1:Nat) = 0 then (1:Nat) else 2) = 2 from rfl,
        show (if (1:Nat) = 0 then (vs.flatten).flatMap u32le
          else ((vs.flatten).map float32ToFp16Bits).flatMap u16le) =
          ((vs.flatten).map float32ToFp16Bits).flatMap u16le from rfl] at he
    have hd2 := decode_mkV1 (vs.headD []).length vs.length 2
        (((vs.flatten).map float32ToFp16Bits).flatMap u16le) (Or.inr rfl) hdlt hclt
    rw [show (if (2:Nat) = 1 then (0:Nat) else 1) = 1 from rfl] at hd2
    exact ⟨_, _, he, hd2⟩

/-- Witness for `fp32_roundtrip_and_header`: the theorem applied at a concrete input. -/
theorem fp32_roundtrip_and_header_witness :
    (([[1, 2], [3, 4]] : List (List Nat)) ≠ []) ∧
    (∃ bytes, encodeVectorsBlob [[1, 2], [3, 4]] 0 .v1 = .ok bytes ∧
      decodeVectorsBlob bytes = .ok (⟨2, 2, 0, some 1⟩, [[1, 2], [3, 4]])) :=
  ⟨by decide,
   (fp32_roundtrip_and_header [[1, 2], [3, 4]] (by decide) (by decide)
     (by decide) (by decide) (by decide)).1⟩

/-- Claim C3, counterexample: a v0 buffer with valid magic and quant code 0
whose payload is 4 bytes instead of the required `count * dim * 4 = 8` is
decoded successfully (returning a single truncated vector `[[1]]`), not
rejected with a `TruncatedBlobError` — no such validation exists in
`decodeVectorsBlob`. -/
theorem decode_no_truncation_cex :
    ((mkV0 2 1 0 [1, 0, 0, 0]).length - 13 ≠ 1 * 2 * 4) ∧
    decodeVectorsBlob (mkV0 2 1 0 [1, 0, 0, 0]) =
      .ok (⟨2, 1, 0, none⟩, [[1]]) := ⟨by decide, rfl⟩

/-- Claim C3, amended: `decodeVectorsBlob` performs no payload-length
validation.  For every buffer in the v0 layout with a recognized quant code,
and every buffer in the v1 layout with a recognized dtype, decode succeeds
and returns exactly `count` vectors regardless of the payload length
(vector contents are silently truncated to the available payload);
there is no `TruncatedBlobError`. -/
theorem decode_no_truncation_check (dim count q : Nat) (p : List Nat)
    (hsniff : isV1Sniff (mkV0 dim count q p) = false)
    (hq : q ≤ 2) (hdim : dim < 4294967296) (hcount : count < 4294967296) :
    (∃ vecs, decodeVectorsBlob (mkV0 dim count q p) =
      .ok (⟨dim, count, if q = 0 then 0 else 1, none⟩, vecs) ∧
      vecs.length = count) ∧
    (∀ d, d = 1 ∨ d = 2 → ∃ vecs, decodeVectorsBlob (mkV1 dim count d p) =
      .ok (⟨dim, count, if d = 1 then 0 else 1, some 1⟩, vecs) ∧
      vecs.length = count) := by
  constructor
  · rw [decode_mkV0 dim count q p hsniff hdim hcount]
    interval_cases q <;> simp [length_decodePayload]
  · intro d hd
    rw [decode_mkV1 dim count d p hd hdim hcount]
    exact ⟨_, rfl, length_decodePayload _ _ _ _⟩

/-- Witness for `decode_no_truncation_check`: the theorem applied at a concrete input. -/
theorem decode_no_truncation_check_witness :
    (isV1Sniff (mkV0 2 1 0 [1, 0, 0, 0]) = false) ∧
    (∃ vecs, decodeVectorsBlob (mkV0 2 1 0 [1, 0, 0, 0]) =
      .ok (⟨2, 1, if 0 = 0 then 0 else 1, none⟩, vecs) ∧ vecs.length = 1) :=
  ⟨by decide,
   (decode_no_truncation_check 2 1 0 [1, 0, 0, 0] (by decide) (by decide)
     (by decide) (by decide)).1⟩

/-- Claim C4: for every buffer parsed under the v0 (13-byte) header layout,
decode accepts quant code 2 as an alias for fp16, producing exactly the
same result as the same payload with quant code 1; codes 0 (fp32) and
1 (fp16) are accepted canonically; every other quant code fails with
`UnknownQuantCodeError`. -/
theorem v0_quant_code_handling (dim count : Nat) (p : List Nat)
    (hsniff : isV1Sniff (mkV0 dim count 0 p) = false)
    (hdim : dim < 4294967296) (hcount : count < 4294967296) :
    decodeVectorsBlob (mkV0 dim count 2 p) = decodeVectorsBlob (mkV0 dim count 1 p) ∧
    decodeVectorsBlob (mkV0 dim count 0 p) =
      .ok (⟨dim, count, 0, none⟩, decodePayload 0 dim count p) ∧
    decodeVectorsBlob (mkV0 dim count 1 p) =
      .ok (⟨dim, count, 1, none⟩, decodePayload 1 dim count p) ∧
    (∀ q, 3 ≤ q → decodeVectorsBlob (mkV0 dim count q p) =
      .error (.unknownQuantCode q)) := by
  have hs : ∀ q, isV1Sniff (mkV0 dim count q p) = false := fun q =>
    (isV1Sniff_mkV0_indep dim count q 0 p).trans hsniff
  refine ⟨?_, ?_, ?_, ?_⟩
  · rw [decode_mkV0 dim count 2 p (hs 2) hdim hcount,
      decode_mkV0 dim count 1 p (hs 1) hdim hcount]
    simp
  · rw [decode_mkV0 dim count 0 p (hs 0) hdim hcount]
    simp
  · rw [decode_mkV0 dim count 1 p (hs 1) hdim hcount]
    simp
  · intro q hq
    rw [decode_mkV0 dim count q p (hs q) hdim hcount]
    have h0 : q ≠ 0 := by omega
    have h12 : ¬ (q = 1 ∨ q = 2) := by omega
    simp [h0, h12]

/-- Witness for `v0_quant_code_handling`: the theorem applied at a concrete input. -/
theorem v0_quant_code_handling_witness :
    (isV1Sniff (mkV0 1 1 0 [0, 60]) = false) ∧
    decodeVectorsBlob (mkV0 1 1 2 [0, 60]) = decodeVectorsBlob (mkV0 1 1 1 [0, 60]) :=
  ⟨by decide,
   (v0_quant_code_handling 1 1 [0, 60] (by decide) (by decide) (by decide)).1⟩

theorem fp16_carry_bits : float32ToFp16Bits 1073739776 = 15360 := by
  have h1 : |(8191 : ℚ)/4096| = 8191/4096 := abs_of_nonneg (by norm_num)
  have h2 : f32ValOfBits 1073739776 = 8191/4096 := by norm_num [f32ValOfBits, qpow2]
  simp only [float32ToFp16Bits, h2]
  norm_num [jsFloat32ToFp16, h1, flog2, natLog2, natLog2Aux, qpow2, jsRound]
  decide

/-- Claim C9: evaluation of the fp16 round-trip at the failing input
`1.999755859375` (float32 pattern `1073739776`, value `8191/4096`, well
inside the normal half-precision range).  The encoder computes
`Math.round(m0 * 1024) = 1024` and `1024 & 0x3FF = 0` discards the carry,
so the value encodes to half pattern `0x3C00` and decodes to `1.0`
(pattern `1065353216`): the round-trip error is `4095/4096 ≈ 0.99976`,
far above the claimed `1e-3` bound.  This is a code bug (a missing
mantissa-carry renormalization in `float32ToFp16Array`); the claim
reflects the documented intent. -/
theorem fp16_roundtrip_carry_bug :
    encodeVectorsBlob [[1073739776]] 1 .v1 = .ok (mkV1 1 1 2 [0, 60]) ∧
    decodeVectorsBlob (mkV1 1 1 2 [0, 60]) =
      .ok (⟨1, 1, 1, some 1⟩, [[1065353216]]) ∧
    f32ValOfBits 1073739776 = 8191 / 4096 ∧
    f32ValOfBits 1065353216 = 1 ∧
    ((8191 : ℚ) / 4096 - 1 > 1 / 1000) := by
  refine ⟨?_, rfl, by norm_num [f32ValOfBits, qpow2],
    by norm_num [f32ValOfBits, qpow2], by norm_num⟩
  simp [encodeVectorsBlob, mkV1, u32le, u16le, fp16_carry_bits]

theorem insertHit_eq_cons (x y : ScoredPair) (t : List ScoredPair) :
    insertHit x (y :: t) =
      if hitLT y x then y :: insertHit x t else x :: y :: t := rfl

theorem mem_insertHit (x z : ScoredPair) (l : List ScoredPair) :
    z ∈ insertHit x l ↔ z = x ∨ z ∈ l := by
  induction l with
  | nil => simp [insertHit]
  | cons y t ih =>
    rw [insertHit_eq_cons]
    by_cases h : hitLT y x
    · rw [if_pos h]
      simp only [List.mem_cons, ih]
      tauto
    · rw [if_neg h]
      simp only [List.mem_cons]

theorem perm_insertHit (x : ScoredPair) (l : List ScoredPair) :
    (insertHit x l).Perm (x :: l) := by
  induction l with
  | nil => simp [insertHit]
  | cons y t ih =>
    rw [insertHit_eq_cons]
    by_cases h : hitLT y x
    · rw [if_pos h]
      exact (ih.cons y).trans (List.Perm.swap x y t)
    · rw [if_neg h]

theorem perm_sortHits (l : List ScoredPair) : (sortHits l).Perm l := by
  induction l with
  | nil => simp [sortHits]
  | cons x t ih =>
    exact (perm_insertHit x (sortHits t)).trans (ih.cons x)

theorem length_sortHits (l : List ScoredPair) :
    (sortHits l).length = l.length := (perm_sortHits l).length_eq

theorem insertHit_pairwise (x : ScoredPair) (l : List ScoredPair)
    (hx : (x.2).isSome) (hl : ∀ y ∈ l, (y.2).isSome)
    (hidx : ∀ y ∈ l, x.1 < y.1)
    (hp : l.Pairwise lexAfter) :
    (insertHit x l).Pairwise lexAfter := by
  induction l with
  | nil => simp [insertHit]
  | cons y t ih =>
    obtain ⟨sx, hsx⟩ := Option.isSome_iff_exists.mp hx
    obtain ⟨sy, hsy⟩ := Option.isSome_iff_exists.mp (hl y (by simp))
    rw [insertHit_eq_cons]
    rw [List.pairwise_cons] at hp
    by_cases h : hitLT y x
    · rw [if_pos h]
      have hlt : sx < sy := by
        simpa [hitLT, hsx, hsy] using h
      rw [List.pairwise_cons]
      constructor
      · intro z hz
        rcases (mem_insertHit x z t).mp hz with hzx | hzt
        · exact hzx ▸ ⟨sy, sx, hsy, hsx, Or.inl hlt⟩
        · exact hp.1 z hzt
      · exact ih (fun z hz => hl z (by simp [hz]))
          (fun z hz => hidx z (by simp [hz])) hp.2
    · rw [if_neg h]
      have hle : sy ≤ sx := by
        simp only [hitLT, hsx, hsy, decide_eq_true_eq] at h
        exact le_of_not_lt h
      rw [List.pairwise_cons]
      constructor
      · intro z hz
        rcases List.mem_cons.mp hz with hzy | hzt
        · subst hzy
          rcases lt_or_eq_of_le hle with hlt | heq
          · exact ⟨sx, sy, hsx, hsy, Or.inl hlt⟩
          · exact ⟨sx, sy, hsx, hsy, Or.inr ⟨heq.symm, hidx z (by simp)⟩⟩
        · obtain ⟨sy2, sz, hsy2, hsz, hor⟩ := hp.1 z hzt
          rw [hsy] at hsy2
          injection hsy2 with hsy2
          subst hsy2
          rcases hor with hzl | ⟨heq, hyi⟩
          · exact ⟨sx, sz, hsx, hsz, Or.inl (lt_of_lt_of_le hzl hle)⟩
          · rcases lt_or_eq_of_le hle with hlt | heq2
            · exact ⟨sx, sz, hsx, hsz, Or.inl (heq ▸ hlt)⟩
            · exact ⟨sx, sz, hsx, hsz,
                Or.inr ⟨by rw [← heq2, heq], hidx z (by simp [hzt])⟩⟩
      · rw [List.pairwise_cons]
        exact ⟨hp.1, hp.2⟩

theorem sortHits_pairwise (l : List ScoredPair)
    (hsome : ∀ p ∈ l, (p.2).isSome)
    (hidx : l.Pairwise (fun a b => a.1 < b.1)) :
    (sortHits l).Pairwise lexAfter := by
  induction l with
  | nil => simp [sortHits]
  | cons x t ih =>
    rw [List.pairwise_cons] at hidx
    refine insertHit_pairwise x (sortHits t) (hsome x (by simp)) ?_ ?_ ?_
    · intro y hy
      exact hsome y (by simp [(perm_sortHits t).mem_iff.mp hy])
    · intro y hy
      exact hidx.1 y ((perm_sortHits t).mem_iff.mp hy)
    · exact ih (fun p hp => hsome p (by simp [hp])) hidx.2

theorem fst_ge_of_mem_enumFrom {α : Type} (n : Nat) (l : List α) (y : Nat × α)
    (hy : y ∈ List.enumFrom n l) : n ≤ y.1 := by
  induction l generalizing n with
  | nil => simp at hy
  | cons x t ih =>
    rw [List.enumFrom_cons] at hy
    rcases List.mem_cons.mp hy with h | h
    · subst h; exact le_refl _
    · exact le_trans (Nat.le_succ n) (ih (n+1) h)

theorem enumFrom_pairwise_fst {α : Type} (n : Nat) (l : List α) :
    (List.enumFrom n l).Pairwise (fun a b => a.1 < b.1) := by
  induction l generalizing n with
  | nil => simp
  | cons x t ih =>
    rw [List.enumFrom_cons, List.pairwise_cons]
    exact ⟨fun y hy => lt_of_lt_of_le (Nat.lt_succ_self n)
      (fst_ge_of_mem_enumFrom (n+1) t y hy), ih (n+1)⟩

theorem enum_pairwise_fst {α : Type} (l : List α) :
    (l.enum).Pairwise (fun a b => a.1 < b.1) := by
  rw [List.enum]
  exact enumFrom_pairwise_fst 0 l

theorem scoredList_pairwise_fst {M : Type} (recs : List (PRec M)) (q : List ℚ)
    (filter : Option (Option M → Bool)) :
    (scoredList recs q filter).Pairwise (fun a b => a.1 < b.1) := by
  unfold scoredList
  rw [List.pairwise_map]
  exact (enum_pairwise_fst recs).filter _

theorem scoredList_mem {M : Type} (recs : List (PRec M)) (q : List ℚ)
    (filter : Option (Option M → Bool)) (p : ScoredPair)
    (hp : p ∈ scoredList recs q filter) :
    ∃ r, recs[p.1]? = some r ∧ passesFilter filter r.meta = true ∧
      p.2 = cosine q r.vector := by
  unfold scoredList at hp
  rw [List.mem_map] at hp
  obtain ⟨⟨i, r⟩, hmem, hpe⟩ := hp
  rw [List.mem_filter] at hmem
  have hgr : recs[i]? = some r := List.mem_enum_iff_getElem?.mp hmem.1
  subst hpe
  exact ⟨r, hgr, hmem.2, rfl⟩

theorem scoredList_some {M : Type} (recs : List (PRec M)) (q : List ℚ)
    (filter : Option (Option M → Bool))
    (hq : ∀ r ∈ recs, q.length ≤ r.vector.length) :
    ∀ p ∈ scoredList recs q filter, (p.2).isSome := by
  intro p hp
  obtain ⟨r, hgr, _, hsc⟩ := scoredList_mem recs q filter p hp
  have hr : r ∈ recs := by
    rcases List.getElem?_eq_some.mp hgr with ⟨h, hg⟩
    exact hg ▸ List.getElem_mem _
  rw [hsc]
  unfold cosine
  rw [if_neg (not_lt.mpr (hq r hr))]
  rfl

/-- Claim C1: `search` computes the cosine (dot-product) score of the query
against every record whose metadata passes the optional filter, returns the
hits as the image of a list of (index, score) pairs that is sorted in
descending score order with ties broken by ascending original insertion
index (deterministic for equal scores), returns exactly
`min k (number of eligible records)` hits — all eligible hits when `k`
exceeds their number, and the empty list when zero records are eligible
(never an error).  The hypothesis says the query is no longer than every
stored vector (the store invariant gives all vectors length `dim`). -/
theorem search_topk_spec {M : Type} (recs : List (PRec M)) (q : List ℚ) (k : Nat)
    (filter : Option (Option M → Bool))
    (hq : ∀ r ∈ recs, q.length ≤ r.vector.length) :
    (search recs q k filter).length = min k (scoredList recs q filter).length ∧
    search recs q k filter =
      ((sortHits (scoredList recs q filter)).take
        (min k (scoredList recs q filter).length)).map (toHit recs) ∧
    ((sortHits (scoredList recs q filter)).take
        (min k (scoredList recs q filter).length)).Pairwise lexAfter ∧
    (∀ p ∈ sortHits (scoredList recs q filter),
      ∃ r, recs[p.1]? = some r ∧ passesFilter filter r.meta = true ∧
        p.2 = cosine q r.vector) ∧
    ((scoredList recs q filter).length ≤ k →
      (search recs q k filter).length = (scoredList recs q filter).length) ∧
    (scoredList recs q filter = [] → search recs q k filter = []) := by
  have hmap : search recs q k filter =
      ((sortHits (scoredList recs q filter)).take
        (min k (scoredList recs q filter).length)).map (toHit recs) := by
    show ((sortHits (scoredList recs q filter)).take
        (min k (sortHits (scoredList recs q filter)).length)).map (toHit recs) = _
    rw [length_sortHits]
  have hlen : (search recs q k filter).length =
      min k (scoredList recs q filter).length := by
    rw [hmap, List.length_map, List.length_take, length_sortHits]
    rw [min_assoc, min_self]
  refine ⟨hlen, hmap, ?_, ?_, ?_, ?_⟩
  · exact List.Pairwise.sublist (List.take_sublist _ _)
      (sortHits_pairwise _ (scoredList_some recs q filter hq)
        (scoredList_pairwise_fst recs q filter))
  · intro p hp
    exact scoredList_mem recs q filter p ((perm_sortHits _).mem_iff.mp hp)
  · intro hk
    rw [hlen]
    omega
  · intro hnil
    rw [hmap, hnil]
    simp [sortHits]

theorem search_length {M : Type} (recs : List (PRec M)) (q : List ℚ) (k : Nat)
    (filter : Option (Option M → Bool)) :
    (search recs q k filter).length = min k (scoredList recs q filter).length := by
  show (((sortHits (scoredList recs q filter)).take
      (min k (sortHits (scoredList recs q filter)).length)).map (toHit recs)).length = _
  rw [List.length_map, List.length_take, length_sortHits, min_assoc, min_self]

theorem scoredList_none_length {M : Type} (recs : List (PRec M)) (q : List ℚ) :
    (scoredList recs q none).length = recs.length := by
  unfold scoredList
  simp [passesFilter]

/-- Witness for `search_topk_spec`: the theorem applied at a concrete input. -/
theorem search_topk_spec_witness :
    (∀ r ∈ c1recs, ([(1 : ℚ), 0]).length ≤ r.vector.length) ∧
    (search c1recs [1, 0] 2 none).length =
      min 2 (scoredList c1recs [1, 0] none).length :=
  ⟨by decide, (search_topk_spec c1recs [1, 0] 2 none (by decide)).1⟩

/-- Claim C10: the inline store's `search` never validates the query
length against the store dimension — for a query of any length it returns
`min k size` ranked hits rather than raising; each returned pair's score
is `cosine` of the query against that record over the query's own length,
and whenever the query is longer than a stored vector the score is the
non-finite `none` (NaN); by contrast the first external-store variant's
`search` is the only one with an explicit dimension check, failing for
every query whose length differs from the store dimension. -/
theorem search_no_query_dim_validation :
    (∀ (M : Type) (recs : List (PRec M)) (q : List ℚ) (k : Nat),
      (search recs q k none).length = min k recs.length) ∧
    (∀ (M : Type) (recs : List (PRec M)) (q : List ℚ),
      ∀ p ∈ sortHits (scoredList recs q none),
        ∃ r, recs[p.1]? = some r ∧ p.2 = cosine q r.vector ∧
          (r.vector.length < q.length → p.2 = none)) ∧
    (∀ (qsqrt : ℚ → ℚ) (st : EStore1) (query : List ℚ) (topK : Nat),
      query.length ≠ st.dim →
        eSearch1 qsqrt st query topK =
          .error (.queryDimMismatch query.length st.dim)) := by
  refine ⟨?_, ?_, ?_⟩
  · intro M recs q k
    rw [search_length, scoredList_none_length]
  · intro M recs q p hp
    obtain ⟨r, hgr, _, hsc⟩ :=
      scoredList_mem recs q none p ((perm_sortHits _).mem_iff.mp hp)
    refine ⟨r, hgr, hsc, ?_⟩
    intro hlt
    rw [hsc]
    unfold cosine
    rw [if_pos hlt]
  · intro qsqrt st query topK h
    unfold eSearch1
    rw [if_pos h]

/-- Witness for `search_no_query_dim_validation`: the theorem applied at a concrete input. -/
theorem search_no_query_dim_validation_witness :
    ((search c1recs [1, 0, 0] 5 none).length = min 5 c1recs.length) ∧
    (([(1 : ℚ)]).length ≠ c10store.dim) ∧
    eSearch1 (fun _ => 0) c10store [1] 3 =
      .error (.queryDimMismatch 1 2) :=
  ⟨search_no_query_dim_validation.1 Unit c1recs [1, 0, 0] 5, by decide,
   search_no_query_dim_validation.2.2 (fun _ => 0) c10store [1] 3 (by decide)⟩

theorem buildRecs_cons {M : Type} (qsqrt : ℚ → ℚ) (dim : Nat)
    (normalize reNormalize : Bool) (e : PEntry M) (es : List (PEntry M)) :
    buildRecs qsqrt dim normalize reNormalize (e :: es) =
      match extractVec e with
      | none => buildRecs qsqrt dim normalize reNormalize es
      | some v =>
        if v.length ≠ dim then .error (.entryDimMismatch e.id v.length dim)
        else
          let w := if reNormalize || !normalize then normalizeInPlace qsqrt v else v
          match buildRecs qsqrt dim normalize reNormalize es with
          | .error err => .error err
          | .ok rest => .ok (⟨w, e.id, e.text, e.meta⟩ :: rest) := rfl

theorem buildRecs_cons_none {M : Type} (qsqrt : ℚ → ℚ) (dim : Nat)
    (normalize reNormalize : Bool) (e : PEntry M) (es : List (PEntry M))
    (hx : extractVec e = none) :
    buildRecs qsqrt dim normalize reNormalize (e :: es) =
      buildRecs qsqrt dim normalize reNormalize es := by
  rw [buildRecs_cons, hx]

theorem buildRecs_cons_some {M : Type} (qsqrt : ℚ → ℚ) (dim : Nat)
    (normalize reNormalize : Bool) (e : PEntry M) (es : List (PEntry M))
    (v : List ℚ) (hx : extractVec e = some v) :
    buildRecs qsqrt dim normalize reNormalize (e :: es) =
      (if v.length ≠ dim then .error (.entryDimMismatch e.id v.length dim)
       else
        match buildRecs qsqrt dim normalize reNormalize es with
        | .error err => .error err
        | .ok rest => .ok (⟨if reNormalize || !normalize then normalizeInPlace qsqrt v else v,
            e.id, e.text, e.meta⟩ :: rest)) := by
  rw [buildRecs_cons, hx]

theorem buildRecs_ok_facts {M : Type} (qsqrt : ℚ → ℚ) (dim : Nat)
    (normalize reNormalize : Bool) (entries : List (PEntry M))
    (recs : List (PRec M))
    (hok : buildRecs qsqrt dim normalize reNormalize entries = .ok recs) :
    recs.length = (entries.filter (fun e => (extractVec e).isSome)).length ∧
    (∀ r ∈ recs, ∃ e ∈ entries, ∃ v, extractVec e = some v ∧ v.length = dim ∧
      r.vector = (if reNormalize || !normalize then normalizeInPlace qsqrt v else v)) := by
  induction entries generalizing recs with
  | nil =>
    simp only [buildRecs] at hok
    injection hok with hok
    subst hok
    simp
  | cons e es ih =>
    cases hx : extractVec e with
    | none =>
      rw [buildRecs_cons_none qsqrt dim normalize reNormalize e es hx] at hok
      obtain ⟨h1, h2⟩ := ih recs hok
      refine ⟨?_, ?_⟩
      · rw [List.filter_cons_of_neg (by simp [hx])]
        exact h1
      · intro r hr
        obtain ⟨e2, he2, hv⟩ := h2 r hr
        exact ⟨e2, by simp [he2], hv⟩
    | some v =>
      rw [buildRecs_cons_some qsqrt dim normalize reNormalize e es v hx] at hok
      by_cases hlen : v.length ≠ dim
      · rw [if_pos hlen] at hok
        exact absurd hok (by simp)
      · rw [if_neg hlen] at hok
        push_neg at hlen
        cases hc : buildRecs qsqrt dim normalize reNormalize es with
        | error err => rw [hc] at hok; exact absurd hok (by simp)
        | ok rest =>
          rw [hc] at hok
          injection hok with hok
          subst hok
          obtain ⟨h1, h2⟩ := ih rest hc
          refine ⟨?_, ?_⟩
          · rw [List.filter_cons_of_pos (by simp [hx])]
            simp only [List.length_cons, h1]
          · intro r hr
            rcases List.mem_cons.mp hr with hre | hrt
            · subst hre
              exact ⟨e, by simp, v, hx, hlen, rfl⟩
            · obtain ⟨e2, he2, hv⟩ := h2 r hrt
              exact ⟨e2, by simp [he2], hv⟩

theorem buildRecs_succeeds {M : Type} (qsqrt : ℚ → ℚ) (dim : Nat)
    (normalize reNormalize : Bool) (entries : List (PEntry M))
    (h1 : ∀ e ∈ entries, ∀ v, extractVec e = some v → v.length = dim) :
    ∃ recs, buildRecs qsqrt dim normalize reNormalize entries = .ok recs := by
  induction entries with
  | nil => exact ⟨[], rfl⟩
  | cons e es ih =>
    obtain ⟨rest, hrest⟩ := ih (fun x hx v hv => h1 x (by simp [hx]) v hv)
    cases hx : extractVec e with
    | none =>
      rw [buildRecs_cons_none qsqrt dim normalize reNormalize e es hx]
      exact ⟨rest, hrest⟩
    | some v =>
      have hlen : ¬ v.length ≠ dim := by
        push_neg
        exact h1 e (by simp) v hx
      rw [buildRecs_cons_some qsqrt dim normalize reNormalize e es v hx,
        if_neg hlen, hrest]
      exact ⟨_, rfl⟩

theorem fromManifest_eq_of_buildRecs {M : Type} (qsqrt : ℚ → ℚ)
    (manifest : PManifest M) (reNormalize : Bool) (recs : List (PRec M))
    (hb : buildRecs qsqrt manifest.model.dim manifest.model.normalize
      reNormalize manifest.entries = .ok recs) :
    fromManifest qsqrt manifest reNormalize =
      (if recs.length = 0 then .error .noVectorsLoaded
       else .ok ⟨manifest.model, recs⟩) := by
  unfold fromManifest
  rw [hb]

theorem fromManifest_ok_recs {M : Type} (qsqrt : ℚ → ℚ) (manifest : PManifest M)
    (reNormalize : Bool) (store : PStore M)
    (hok : fromManifest qsqrt manifest reNormalize = .ok store) :
    ∃ recs, buildRecs qsqrt manifest.model.dim manifest.model.normalize
        reNormalize manifest.entries = .ok recs ∧
      recs.length ≠ 0 ∧ store = ⟨manifest.model, recs⟩ := by
  cases hb : buildRecs qsqrt manifest.model.dim manifest.model.normalize
      reNormalize manifest.entries with
  | error err =>
    unfold fromManifest at hok
    rw [hb] at hok
    exact absurd hok (by simp)
  | ok recs =>
    rw [fromManifest_eq_of_buildRecs qsqrt manifest reNormalize recs hb] at hok
    by_cases hz : recs.length = 0
    · rw [if_pos hz] at hok
      exact absurd hok (by simp)
    · rw [if_neg hz] at hok
      injection hok with hok
      exact ⟨recs, rfl, hz, hok.symm⟩

theorem buildRecs_all_none {M : Type} (qsqrt : ℚ → ℚ) (dim : Nat)
    (normalize reNormalize : Bool) (entries : List (PEntry M))
    (h : ∀ e ∈ entries, extractVec e = none) :
    buildRecs qsqrt dim normalize reNormalize entries = .ok [] := by
  induction entries with
  | nil => rfl
  | cons e es ih =>
    rw [buildRecs_cons_none qsqrt dim normalize reNormalize e es (h e (by simp))]
    exact ih (fun x hx => h x (by simp [hx]))

/-- Claim C7, amended: inline-path construction silently skips every
manifest entry that has neither a numeric nor a base64 embedding:
construction fails (with the generic "No vectors loaded" error) only when
*no* entry yields a vector; when at least one entry has an embedding (and
the extracted vectors match `model.dim`) construction succeeds, and the
store size equals the number of entries that do have an embedding. -/
theorem missing_embedding_skipped {M : Type} (qsqrt : ℚ → ℚ)
    (manifest : PManifest M) (reNormalize : Bool) :
    ((∀ e ∈ manifest.entries, extractVec e = none) →
      fromManifest qsqrt manifest reNormalize = .error .noVectorsLoaded) ∧
    (∀ store, fromManifest qsqrt manifest reNormalize = .ok store →
      store.size =
        (manifest.entries.filter (fun e => (extractVec e).isSome)).length) ∧
    ((∀ e ∈ manifest.entries, ∀ v, extractVec e = some v →
        v.length = manifest.model.dim) →
      (∃ e ∈ manifest.entries, (extractVec e).isSome) →
      ∃ store, fromManifest qsqrt manifest reNormalize = .ok store) := by
  refine ⟨?_, ?_, ?_⟩
  · intro hall
    rw [fromManifest_eq_of_buildRecs qsqrt manifest reNormalize []
      (buildRecs_all_none qsqrt manifest.model.dim manifest.model.normalize
        reNormalize manifest.entries hall)]
    rfl
  · intro store hok
    obtain ⟨recs, hb, _, hstore⟩ :=
      fromManifest_ok_recs qsqrt manifest reNormalize store hok
    have h1 := (buildRecs_ok_facts qsqrt manifest.model.dim
      manifest.model.normalize reNormalize manifest.entries recs hb).1
    rw [hstore]
    exact h1
  · intro hdims hsome
    obtain ⟨recs, hb⟩ := buildRecs_succeeds qsqrt manifest.model.dim
      manifest.model.normalize reNormalize manifest.entries hdims
    have h1 := (buildRecs_ok_facts qsqrt manifest.model.dim
      manifest.model.normalize reNormalize manifest.entries recs hb).1
    have hz : recs.length ≠ 0 := by
      rw [h1]
      obtain ⟨e, he, hse⟩ := hsome
      have : e ∈ manifest.entries.filter (fun e => (extractVec e).isSome) :=
        List.mem_filter.mpr ⟨he, hse⟩
      have := List.length_pos.mpr (List.ne_nil_of_mem this)
      omega
    refine ⟨⟨manifest.model, recs⟩, ?_⟩
    rw [fromManifest_eq_of_buildRecs qsqrt manifest reNormalize recs hb,
      if_neg hz]

theorem sumSq_cons (x : ℚ) (t : List ℚ) : sumSq (x :: t) = x * x + sumSq t := rfl

theorem sumSq_map_div (v : List ℚ) (n : ℚ) :
    sumSq (v.map (fun x => x / n)) = sumSq v / (n * n) := by
  induction v with
  | nil => simp [sumSq]
  | cons x t ih =>
    rw [List.map_cons, sumSq_cons, sumSq_cons, ih,
      div_mul_div_comm, div_add_div_same]

theorem normalizeInPlace_sumSq (qsqrt : ℚ → ℚ) (v : List ℚ)
    (hs : sumSq v ≠ 0 →
      0 < qsqrt (sumSq v) ∧ qsqrt (sumSq v) * qsqrt (sumSq v) = sumSq v) :
    sumSq (normalizeInPlace qsqrt v) = 0 ∨ sumSq (normalizeInPlace qsqrt v) = 1 := by
  unfold normalizeInPlace l2norm
  by_cases h0 : sumSq v = 0
  · by_cases hn : 0 < qsqrt (sumSq v)
    · rw [if_pos hn, sumSq_map_div, h0, zero_div]
      exact Or.inl rfl
    · rw [if_neg hn]
      exact Or.inl h0
  · obtain ⟨hpos, hsq⟩ := hs h0
    rw [if_pos hpos, sumSq_map_div, hsq, div_self h0]
    exact Or.inr rfl

/-- Claim C8, amended: for any store built with `model.normalize == false`
or with re-normalization explicitly requested, every stored vector has
squared L2 norm exactly 1 in exact arithmetic (within float tolerance in
practice) — except that a vector which was zero on input remains zero.
`qsqrt` models `Math.sqrt`; the hypothesis states its exactness on the
squared norms actually encountered.  The store is immutable after
construction (the model is purely functional; `search` only reads), so the
invariant holds for the store's lifetime. -/
theorem normalize_invariant {M : Type} (qsqrt : ℚ → ℚ) (manifest : PManifest M)
    (reNormalize : Bool) (store : PStore M)
    (hbranch : reNormalize = true ∨ manifest.model.normalize = false)
    (hsqrt : ∀ e ∈ manifest.entries, ∀ v, extractVec e = some v → sumSq v ≠ 0 →
      0 < qsqrt (sumSq v) ∧ qsqrt (sumSq v) * qsqrt (sumSq v) = sumSq v)
    (hok : fromManifest qsqrt manifest reNormalize = .ok store) :
    ∀ r ∈ store.recs, sumSq r.vector = 0 ∨ sumSq r.vector = 1 := by
  obtain ⟨recs, hb, _, hstore⟩ :=
    fromManifest_ok_recs qsqrt manifest reNormalize store hok
  have h2 := (buildRecs_ok_facts qsqrt manifest.model.dim
    manifest.model.normalize reNormalize manifest.entries recs hb).2
  have hbr : (reNormalize || !manifest.model.normalize) = true := by
    rcases hbranch with h | h <;> simp [h]
  intro r hr
  rw [hstore] at hr
  obtain ⟨e, he, v, hv, _, hvec⟩ := h2 r hr
  rw [hbr] at hvec
  simp only [if_true] at hvec
  rw [hvec]
  exact normalizeInPlace_sumSq qsqrt v (hsqrt e he v hv)

/-- Claim C8, counterexample: a store built with `model.normalize == true`
(and no re-normalization request) stores its vectors as-is, trusting the
manifest: the entry vector `[2, 0]` is stored with squared L2 norm 4, which
is outside `[(1 - 1e-4)^2, (1 + 1e-4)^2]`, so its norm is not within `1e-4`
of 1.  Moreover even with re-normalization requested, a zero vector is
stored unchanged with norm 0 (`normalizeInPlace` is a no-op at norm 0). -/
theorem normalize_invariant_cex :
    fromManifest (fun _ => 0) c8manA false =
      .ok ⟨⟨"m", 2, true⟩, [⟨[2, 0], "a", "t", none⟩]⟩ ∧
    ¬ ((9999/10000 : ℚ) * (9999/10000) ≤ sumSq [(2 : ℚ), 0] ∧
       sumSq [(2 : ℚ), 0] ≤ (10001/10000 : ℚ) * (10001/10000)) ∧
    fromManifest (fun _ => 0) c8manB true =
      .ok ⟨⟨"m", 2, true⟩, [⟨[0, 0], "z", "t", none⟩]⟩ ∧
    ¬ ((9999/10000 : ℚ) * (9999/10000) ≤ sumSq [(0 : ℚ), 0] ∧
       sumSq [(0 : ℚ), 0] ≤ (10001/10000 : ℚ) * (10001/10000)) := by
  refine ⟨rfl, ?_, ?_, ?_⟩
  · norm_num [sumSq]
  · show fromManifest (fun _ => 0) c8manB true = _
    have hb : buildRecs (fun _ => 0) 2 true true (c8manB.entries) =
        .ok [⟨[0, 0], "z", "t", none⟩] := by
      show buildRecs (fun _ => 0) 2 true true
        [⟨"z", "t", none, some [0, 0], none⟩] = _
      rw [buildRecs_cons_some (fun _ => 0) 2 true true
        ⟨"z", "t", none, some [0, 0], none⟩ [] [0, 0] rfl]
      norm_num [normalizeInPlace, l2norm, sumSq]
      rfl
    rw [fromManifest_eq_of_buildRecs (fun _ => 0) c8manB true _ hb]
    rfl
  · norm_num [sumSq]

/-- Witness for `normalize_invariant`: the theorem applied at a concrete input. -/
theorem normalize_invariant_witness :
    (false = true ∨ c8manW.model.normalize = false) ∧
    fromManifest c8sqrt c8manW false = .ok c8storeW ∧
    ∀ r ∈ c8storeW.recs, sumSq r.vector = 0 ∨ sumSq r.vector = 1 := by
  have hok : fromManifest c8sqrt c8manW false = .ok c8storeW := by
    have hb : buildRecs c8sqrt 2 false false c8manW.entries =
        .ok [⟨[3/5, 4/5], "w", "t", none⟩] := by
      show buildRecs c8sqrt 2 false false
        [⟨"w", "t", none, some [3, 4], none⟩] = _
      rw [buildRecs_cons_some c8sqrt 2 false false
        ⟨"w", "t", none, some [3, 4], none⟩ [] [3, 4] rfl]
      norm_num [normalizeInPlace, l2norm, sumSq, c8sqrt]
      rfl
    rw [fromManifest_eq_of_buildRecs c8sqrt c8manW false _ hb]
    rfl
  refine ⟨Or.inr rfl, hok, ?_⟩
  refine normalize_invariant c8sqrt c8manW false c8storeW (Or.inr rfl) ?_ hok
  intro e he v hv hnz
  simp only [c8manW, List.mem_singleton] at he
  subst he
  have hv2 : some ([3, 4] : List ℚ) = some v := hv
  injection hv2 with hv2
  subst hv2
  norm_num [sumSq, c8sqrt]

/-- Claim C7, counterexample: a manifest whose first entry has neither a
numeric nor a base64 embedding still constructs successfully
(`if (!vec) continue` skips the entry), producing a store of size 1 from
the remaining entry — it does not fail with a `MissingEmbeddingError`
(which exists nowhere in the code). -/
theorem missing_embedding_skipped_cex :
    extractVec (⟨"a", "ta", none, none, none⟩ : PEntry Unit) = none ∧
    fromManifest (fun _ => 0) c7man false =
      .ok ⟨⟨"m", 1, true⟩, [⟨[1], "b", "tb", none⟩]⟩ ∧
    (⟨⟨"m", 1, true⟩, [⟨[1], "b", "tb", none⟩]⟩ : PStore Unit).size = 1 :=
  ⟨rfl, rfl, rfl⟩

/-- Witness for `missing_embedding_skipped`: the theorem applied at a concrete input. -/
theorem missing_embedding_skipped_witness :
    ((extractVec (⟨"b", "tb", none, some [1], none⟩ : PEntry Unit)).isSome = true) ∧
    ∃ store, fromManifest (fun _ => 0) c7man false = .ok store := by
  refine ⟨rfl, ?_⟩
  refine (missing_embedding_skipped (fun _ => 0) c7man false).2.2 ?_ ?_
  · intro e he v hv
    simp only [c7man, List.mem_cons, List.not_mem_nil, or_false] at he
    rcases he with rfl | rfl
    · exact absurd hv (by simp [extractVec])
    · have hv2 : some ([1] : List ℚ) = some v := hv
      injection hv2 with hv2
      subst hv2
      rfl
  · exact ⟨⟨"b", "tb", none, some [1], none⟩, by simp [c7man], rfl⟩

/-- Claim C5: whenever the manifest declares a vectors checksum
(`vectors_checksum`, or the `model.checksum` fallback) and the SHA-256
digest computed over the exact fetched bytes disagrees with it,
`fromManifestWithExternalVectors` fails with `ChecksumMismatchError`
carrying the computed digest — for arbitrary byte content, so construction
never proceeds to decoding (the error is the checksum error even for
undecodable bytes).  In particular a blob differing from the checksummed
one in a single byte fails this way whenever its digest differs (the
witness flips one byte of an undecodable buffer). -/
theorem checksum_mismatch_fails {M : Type} (qsqrt : ℚ → ℚ)
    (sha256Hex : List Nat → String) (manifest : ExtManifest M)
    (bytes : List Nat) (c : String)
    (huri : manifest.vectors_uri.getD "" ≠ "")
    (hc : expectedChecksum manifest = some c)
    (hm : sha256Hex bytes ≠ c) :
    fromManifestWithExternalVectors qsqrt sha256Hex manifest bytes =
      .error (.checksumMismatch (sha256Hex bytes) c) := by
  unfold fromManifestWithExternalVectors
  rw [if_neg huri, hc]
  show (if sha256Hex bytes ≠ c then
      Except.error (ExtErr.checksumMismatch (sha256Hex bytes) c)
    else extDecodeAndBuild qsqrt manifest bytes) = _
  rw [if_pos hm]

theorem ext_reduces {M : Type} (qsqrt : ℚ → ℚ)
    (sha256Hex : List Nat → String) (manifest : ExtManifest M)
    (bytes : List Nat)
    (huri : manifest.vectors_uri.getD "" ≠ "")
    (hchk : ∀ c, expectedChecksum manifest = some c → sha256Hex bytes = c) :
    fromManifestWithExternalVectors qsqrt sha256Hex manifest bytes =
      extDecodeAndBuild qsqrt manifest bytes := by
  unfold fromManifestWithExternalVectors
  rw [if_neg huri]
  cases hec : expectedChecksum manifest with
  | none => rfl
  | some c =>
    have heq := hchk c hec
    show (if sha256Hex bytes ≠ c then
        Except.error (ExtErr.checksumMismatch (sha256Hex bytes) c)
      else extDecodeAndBuild qsqrt manifest bytes) = _
    rw [if_neg (by simp [heq])]

theorem extBuild_eq {M : Type} (qsqrt : ℚ → ℚ) (manifest : ExtManifest M)
    (bytes : List Nat) (header : VectorBlobHeader) (vectors : List (List Nat))
    (hdec : decodeVectorsBlob bytes = .ok (header, vectors)) :
    extDecodeAndBuild qsqrt manifest bytes =
      (if header.dim ≠ manifest.model.dim then
        .error (.dimMismatch header.dim manifest.model.dim)
      else if vectors.length ≠ manifest.entries.length then
        .error (.countMismatch vectors.length manifest.entries.length)
      else .ok ⟨manifest.model,
        (vectors.zip manifest.entries).map (fun p =>
          let v := p.1.map f32ValOfBits
          let w := if manifest.model.normalize then v
                   else normalizeInPlace qsqrt v
          ⟨w, p.2.id, p.2.text, p.2.meta⟩)⟩) := by
  unfold extDecodeAndBuild
  rw [hdec]

theorem extBuild_ok {M : Type} (qsqrt : ℚ → ℚ) (manifest : ExtManifest M)
    (bytes : List Nat) (store : ExtStore M)
    (hok : extDecodeAndBuild qsqrt manifest bytes = .ok store) :
    ∃ header vectors, decodeVectorsBlob bytes = .ok (header, vectors) ∧
      header.dim = manifest.model.dim ∧
      vectors.length = manifest.entries.length ∧
      store.size = manifest.entries.length := by
  cases hdec : decodeVectorsBlob bytes with
  | error e =>
    unfold extDecodeAndBuild at hok
    rw [hdec] at hok
    exact absurd hok (by simp)
  | ok pr =>
    obtain ⟨header, vectors⟩ := pr
    rw [extBuild_eq qsqrt manifest bytes header vectors hdec] at hok
    by_cases h1 : header.dim ≠ manifest.model.dim
    · rw [if_pos h1] at hok
      exact absurd hok (by simp)
    · rw [if_neg h1] at hok
      push_neg at h1
      by_cases h2 : vectors.length ≠ manifest.entries.length
      · rw [if_pos h2] at hok
        exact absurd hok (by simp)
      · rw [if_neg h2] at hok
        push_neg at h2
        injection hok with hok
        refine ⟨header, vectors, rfl, h1, h2, ?_⟩
        rw [← hok]
        show ((vectors.zip manifest.entries).map _).length = _
        rw [List.length_map, List.length_zip, h2, min_self]

/-- Claim C6: in external-path store construction, if the decoded blob
header's `dim` differs from the manifest's `model.dim` the construction
fails with `DimensionMismatchError`; if the dimensions agree but the
decoded vector count differs from the manifest's entry count it fails with
`CountMismatchError`; and a store is returned only when both equalities
hold, in which case its record count equals the manifest's entry count. -/
theorem dim_count_contracts {M : Type} (qsqrt : ℚ → ℚ)
    (sha256Hex : List Nat → String) (manifest : ExtManifest M)
    (bytes : List Nat)
    (huri : manifest.vectors_uri.getD "" ≠ "")
    (hchk : ∀ c, expectedChecksum manifest = some c → sha256Hex bytes = c) :
    (∀ header vectors, decodeVectorsBlob bytes = .ok (header, vectors) →
      (header.dim ≠ manifest.model.dim →
        fromManifestWithExternalVectors qsqrt sha256Hex manifest bytes =
          .error (.dimMismatch header.dim manifest.model.dim)) ∧
      (header.dim = manifest.model.dim →
        vectors.length ≠ manifest.entries.length →
        fromManifestWithExternalVectors qsqrt sha256Hex manifest bytes =
          .error (.countMismatch vectors.length manifest.entries.length))) ∧
    (∀ store,
      fromManifestWithExternalVectors qsqrt sha256Hex manifest bytes = .ok store →
      ∃ header vectors, decodeVectorsBlob bytes = .ok (header, vectors) ∧
        header.dim = manifest.model.dim ∧
        vectors.length = manifest.entries.length ∧
        store.size = manifest.entries.length) := by
  have hred := ext_reduces qsqrt sha256Hex manifest bytes huri hchk
  refine ⟨?_, ?_⟩
  · intro header vectors hdec
    rw [hred, extBuild_eq qsqrt manifest bytes header vectors hdec]
    constructor
    · intro h1
      rw [if_pos h1]
    · intro h1 h2
      rw [if_neg (by simpa using h1), if_pos h2]
  · intro store hok
    rw [hred] at hok
    exact extBuild_ok qsqrt manifest bytes store hok

/-- Witness for `checksum_mismatch_fails`: the theorem applied at a concrete input. -/
theorem checksum_mismatch_fails_witness :
    ((c5man : ExtManifest Unit).vectors_uri.getD "" ≠ "") ∧
    expectedChecksum c5man = some "sha256:aaa" ∧
    ([9, 9, 9].set 0 8 = [8, 9, 9]) ∧
    c5sha [9, 9, 9] = "sha256:aaa" ∧
    c5sha [8, 9, 9] ≠ "sha256:aaa" ∧
    fromManifestWithExternalVectors (fun _ => 0) c5sha c5man [8, 9, 9] =
      .error (.checksumMismatch "sha256:bbb" "sha256:aaa") := by
  refine ⟨by decide, rfl, by decide, rfl, by decide, ?_⟩
  exact checksum_mismatch_fails (fun _ => 0) c5sha c5man [8, 9, 9]
    "sha256:aaa" (by decide) rfl (by decide)

/-- Witness for `dim_count_contracts`: the theorem applied at a concrete input. -/
theorem dim_count_contracts_witness :
    decodeVectorsBlob (mkV0 1 2 0 [1, 0, 0, 0, 2, 0, 0, 0]) =
      .ok (⟨1, 2, 0, none⟩, [[1], [2]]) ∧
    fromManifestWithExternalVectors (fun _ => 0) (fun _ => "x") c6man
        (mkV0 1 2 0 [1, 0, 0, 0, 2, 0, 0, 0]) =
      .error (.dimMismatch 1 2) := by
  refine ⟨rfl, ?_⟩
  exact ((dim_count_contracts (fun _ => 0) (fun _ => "x") c6man
      (mkV0 1 2 0 [1, 0, 0, 0, 2, 0, 0, 0]) (by decide)
      (fun c hc => Option.noConfusion hc)).1
    ⟨1, 2, 0, none⟩ [[1], [2]] rfl).1 (by decide)

end InftAgent
